import Mathlib

/-!
Verification development for the documentation generation pipeline
(`scripts/generate-docs.ts`): navigation synthesis and content
materialization.  Source functions are shallowly embedded as executable
Lean definitions over `List Char` / `String`; file-system effects are
modelled by explicit state passing and action traces.  JavaScript string
builtins (`localeCompare`, regex matching) are modelled explicitly at the
character level; the comments on each definition name the source
construct it embeds.
-/

namespace DocsGen

/-! ## Character/string utilities (models of JS string builtins) -/

/-- Whitespace class of the JS regex `\s` (ASCII part; the inputs in this
development contain no exotic Unicode whitespace). -/
def isWsChar (c : Char) : Bool :=
  c = ' ' || c = '\t' || c = '\n' || c = '\r' || c = '\x0b' || c = '\x0c'

/-- JS line terminators relevant to the `m` flag and to `.` (which does not
match them): `\n` and `\r` (the inputs contain no ` `/` `). -/
def isNLChar (c : Char) : Bool :=
  c = '\n' || c = '\r'

/-- Charwise prefix test (model of `String.prototype.startsWith`). -/
def isPfx : List Char → List Char → Bool
  | [], _ => true
  | _ :: _, [] => false
  | a :: as, b :: bs => a == b && isPfx as bs

/-- Substring occurrence test (model of `String.prototype.includes`). -/
def hasSub (pat : List Char) : List Char → Bool
  | [] => pat.isEmpty
  | c :: rest => isPfx pat (c :: rest) || hasSub pat rest

/-- `String.prototype.startsWith` on `String`. -/
def strStartsWith (s pat : String) : Bool := isPfx pat.data s.data

/-- `String.prototype.endsWith` on `String`. -/
def strEndsWith (s pat : String) : Bool := isPfx pat.data.reverse s.data.reverse

/-- `String.prototype.includes` on `String`. -/
def strHasSub (s pat : String) : Bool := hasSub pat.data s.data

/-- `String.prototype.trim` (both ends, JS whitespace class). -/
def trimL (l : List Char) : List Char :=
  ((l.dropWhile isWsChar).reverse.dropWhile isWsChar).reverse

/-- Split at the first occurrence of character `c`: returns the part
before (which does not contain `c`) and the part after. -/
def splitAtChar (c : Char) : List Char → Option (List Char × List Char)
  | [] => none
  | x :: xs =>
    if x = c then some ([], xs)
    else (splitAtChar c xs).map (fun p => (x :: p.1, p.2))

/-- Split at the first occurrence of a (nonempty) pattern: part before and
part after the pattern. -/
def splitFirstSub (pat : List Char) : List Char → Option (List Char × List Char)
  | [] => none
  | c :: rest =>
    if isPfx pat (c :: rest) then some ([], (c :: rest).drop pat.length)
    else (splitFirstSub pat rest).map (fun p => (c :: p.1, p.2))

/-- Split a character list into lines at `\n` (model of `split("\n")`). -/
def splitLinesL : List Char → List (List Char)
  | [] => [[]]
  | c :: rest =>
    if c = '\n' then [] :: splitLinesL rest
    else
      match splitLinesL rest with
      | [] => [[c]]
      | line :: more => (c :: line) :: more

/-- Code-point comparison of characters. -/
def charCmp (a b : Char) : Ordering :=
  if a.toNat < b.toNat then .lt else if b.toNat < a.toNat then .gt else .eq

/-- Model of `String.prototype.localeCompare` as code-point lexicographic
order (they agree on the all-lowercase ASCII names compared in this
program). -/
def localeCmpL : List Char → List Char → Ordering
  | [], [] => .eq
  | [], _ :: _ => .lt
  | _ :: _, [] => .gt
  | a :: as, b :: bs =>
    match charCmp a b with
    | .eq => localeCmpL as bs
    | o => o

/-- `localeCompare` on `String`. -/
def localeCmp (a b : String) : Ordering := localeCmpL a.data b.data

/-- Comparison on `Int` as an `Ordering`. -/
def intCmp (a b : Int) : Ordering :=
  if a < b then .lt else if b < a then .gt else .eq

/-! ## Link Rewriter (`convertLocalMarkdownLinks`) -/

/-- One application of `linkPath.replace(/\.mdx?(#|$)/, "$1")`: remove the
first `.md`/`.mdx` occurrence that is followed by `#` or the end of the
string, keeping the `#`.  The greedy `x?` prefers `.mdx`; on failure the
regex engine retries `.md` at the same index, then advances one character. -/
def stripMd : List Char → List Char
  | '.' :: 'm' :: 'd' :: 'x' :: rest =>
    if rest.head? = some '#' || rest.isEmpty then rest
    else '.' :: stripMd ('m' :: 'd' :: 'x' :: rest)
  | '.' :: 'm' :: 'd' :: rest =>
    if rest.head? = some '#' || rest.isEmpty then rest
    else '.' :: stripMd ('m' :: 'd' :: rest)
  | c :: rest => c :: stripMd rest
  | [] => []

/-- The per-link path conversion: the body of the replacement callback in
`convertLocalMarkdownLinks`.  External links (scheme prefix) and targets
with `://`, `?` or `=` are returned verbatim; otherwise the markup
extension is stripped and a `./` prefix is added when the target is not
already relative-qualified. -/
def convertTargetL (p : List Char) : List Char :=
  if isPfx (("http://").data) p || isPfx (("https://").data) p then p
  else if hasSub (("://").data) p || p.contains '?' || p.contains '=' then p
  else
    let cp := if hasSub ((".md").data) p then stripMd p else p
    if isPfx (("./").data) cp || isPfx (("/").data) cp || isPfx (("../").data) cp then cp
    else '.' :: '/' :: cp

/-- Per-link path conversion on `String`. -/
def convertTarget (p : String) : String := String.mk (convertTargetL p.data)

/-- Attempt to match the regex `\[([^\]]*)\]\(([^)]+)\)` at the current
position, the leading `[` already consumed: returns (label, target, rest).
The negated classes make the greedy match deterministic: the label runs to
the first `]`, which must be followed by `(`, and the target runs to the
first `)` and must be nonempty. -/
def tryMatchLink (l : List Char) : Option (List Char × List Char × List Char) :=
  match splitAtChar ']' l with
  | none => none
  | some (lab, r1) =>
    match r1 with
    | c :: r2 =>
      if c = '(' then
        match splitAtChar ')' r2 with
        | none => none
        | some (tgt, rest) => if tgt.isEmpty then none else some (lab, tgt, rest)
      else none
    | [] => none

/-- The replacement emitted for a matched link: `[${linkText}](${converted})`.
When the callback skips (external target), `convertTargetL` returns the
target itself, so the emitted text equals the original match. -/
def rewriteLink (lab tgt : List Char) : List Char :=
  '[' :: lab ++ ']' :: '(' :: convertTargetL tgt ++ [')']

/-- Fuel-indexed global regex replacement scan of
`content.replace(/\[([^\]]*)\]\(([^)]+)\)/g, ...)`: at each position, if a
link matches it is replaced and scanning resumes after it, otherwise the
character is copied.  The fuel only needs to be at least the input length. -/
def scanGas : Nat → List Char → List Char
  | 0, l => l
  | _ + 1, [] => []
  | g + 1, c :: rest =>
    if c = '[' then
      match tryMatchLink rest with
      | some (lab, tgt, rem) => rewriteLink lab tgt ++ scanGas g rem
      | none => c :: scanGas g rest
    else c :: scanGas g rest

/-- `convertLocalMarkdownLinks(content)`. -/
def convertLocalMarkdownLinks (s : String) : String :=
  String.mk (scanGas s.data.length s.data)

/-- Fuel-indexed check that every link matched by the scan already has a
converted target (so the replacement pass is the identity on it). -/
def fixedGas : Nat → List Char → Bool
  | 0, _ => true
  | _ + 1, [] => true
  | g + 1, c :: rest =>
    if c = '[' then
      match tryMatchLink rest with
      | some (_, tgt, rem) => (convertTargetL tgt == tgt) && fixedGas g rem
      | none => fixedGas g rest
    else fixedGas g rest

/-- Every link target in the text is already in converted form. -/
def linksFixed (s : String) : Bool := fixedGas s.data.length s.data

/-! ## Frontmatter Transformer (`processMarkdownFrontmatter`)

The `gray-matter` library is an external collaborator; its interface
(parse a leading `---` key/value metadata block and the body; throw on
malformed metadata; re-serialize with `matter.stringify`) is modelled by
`matterParse` / `stringifyFM`.  `matterParse` returning `none` models the
exception path of `matter(content)`; the concrete malformed inputs used
below (a metadata line such as `{invalid`) also throw in the real
library. -/

/-- The metadata keys the script reads or writes; all other keys pass
through in `others`. -/
structure FMData where
  title : Option String := none
  sidebarTitle : Option String := none
  sidebar_label : Option String := none
  sidebar_position : Option Int := none
  others : List (String × String) := []
deriving DecidableEq

/-- JS truthiness of an optional string field (`undefined` and `""` are
falsy). -/
def optTruthy : Option String → Bool
  | none => false
  | some s => !(s == "")

/-- Parse an optional-sign integer (model of a YAML number scalar). -/
def parseIntL : List Char → Option Int
  | [] => none
  | '-' :: ds =>
    if ds ≠ [] && ds.all (fun c => c.isDigit) then
      some (-(Int.ofNat (String.mk ds).toNat!))
    else none
  | ds =>
    if ds.all (fun c => c.isDigit) then some (Int.ofNat (String.mk ds).toNat!)
    else none

/-- Parse one metadata line into the accumulating record; a nonempty line
without a `key: value` shape is a parse failure (models a YAML error). -/
def parseFMLine (d : FMData) (line : List Char) : Option FMData :=
  if trimL line = [] then some d
  else
    match splitAtChar ':' line with
    | none => none
    | some (k, v) =>
      let key := String.mk (trimL k)
      let val := String.mk (trimL v)
      if key = "" then none
      else if key = "title" then some { d with title := some val }
      else if key = "sidebarTitle" then some { d with sidebarTitle := some val }
      else if key = "sidebar_label" then some { d with sidebar_label := some val }
      else if key = "sidebar_position" then
        match parseIntL (trimL v) with
        | some n => some { d with sidebar_position := some n }
        | none => some { d with others := d.others ++ [(key, val)] }
      else some { d with others := d.others ++ [(key, val)] }

/-- Parse all metadata lines. -/
def parseFMBlock (lines : List (List Char)) : Option FMData :=
  lines.foldl (fun acc line => acc.bind (fun d => parseFMLine d line)) (some ({} : FMData))

/-- Model of `matter(content)`: no leading `---` delimiter means empty
metadata and the whole text as body; otherwise the block up to the
closing `---` line is parsed, and a malformed block yields `none` (the
thrown exception). -/
def matterParse (s : String) : Option (FMData × String) :=
  if !strStartsWith s ("---\n") then some ({}, s)
  else
    match splitFirstSub (("\n---\n").data) (s.data.drop 3) with
    | some (block, body) =>
      (parseFMBlock (splitLinesL block)).map (fun d => (d, String.mk body))
    | none =>
      match splitFirstSub (("\n---").data) (s.data.drop 3) with
      | some (block, body) =>
        if body.isEmpty then
          (parseFMBlock (splitLinesL block)).map (fun d => (d, String.mk body))
        else none
      | none => none

/-- Model of `matter.stringify(content, data)`: a `---`-delimited metadata
block followed by the body. -/
def renderFMLine (k v : String) : String := k ++ ": " ++ v ++ "\n"

/-- Render the metadata record as key/value lines. -/
def renderFM (d : FMData) : String :=
  String.join (d.others.map (fun kv => renderFMLine kv.1 kv.2)) ++
  (match d.sidebar_label with | some v => renderFMLine ("sidebar_label") v | none => "") ++
  (match d.sidebarTitle with | some v => renderFMLine ("sidebarTitle") v | none => "") ++
  (match d.title with | some v => renderFMLine ("title") v | none => "") ++
  (match d.sidebar_position with
   | some n => renderFMLine ("sidebar_position") (toString n)
   | none => "")

/-- `matter.stringify` model. -/
def stringifyFM (d : FMData) (content : String) : String :=
  "---\n" ++ renderFM d ++ "---\n" ++ content

/-- Attempt to match `/^\s*#\s+(.+)$/m` (and the removal pattern
`/^\s*#\s+.+$\n*/m`) at a line start: returns the capture and the text
after the matched span (trailing `\n`-run included, as `\n*` consumes it).
`\s` may span newlines; `.` stops at a line terminator; when everything
after `#` is whitespace, the greedy `\s+` backtracks minimally so the
capture is the last non-terminator whitespace character. -/
def matchHeadingAt (l : List Char) : Option (List Char × List Char) :=
  let r := l.dropWhile isWsChar
  match r with
  | '#' :: r2 =>
    let w := r2.takeWhile isWsChar
    let r3 := r2.dropWhile isWsChar
    if w.isEmpty then none
    else
      match r3 with
      | [] =>
        let trailNL := (w.reverse.takeWhile isNLChar).reverse
        match w.reverse.dropWhile isNLChar with
        | [] => none
        | c :: pre =>
          if pre.isEmpty then none
          else some ([c], trailNL.dropWhile (fun x => x = '\n'))
      | _ =>
        let cap := r3.takeWhile (fun c => !isNLChar c)
        let after := r3.dropWhile (fun c => !isNLChar c)
        some (cap, after.dropWhile (fun x => x = '\n'))
  | _ => none

/-- Fuel-indexed scan over line starts for the first heading match
(leftmost match of the `/m` regex; `^` only succeeds at line starts). -/
def ehGas : Nat → List Char → Option (List Char)
  | 0, _ => none
  | g + 1, l =>
    match matchHeadingAt l with
    | some (cap, _) => some cap
    | none =>
      match l.dropWhile (fun c => !isNLChar c) with
      | [] => none
      | _ :: rest => ehGas g rest

/-- `extractFirstHeading(content)`: text of the first `#` heading, trimmed,
or `none` when no heading matches. -/
def extractFirstHeading (s : String) : Option String :=
  (ehGas s.data.length s.data).map (fun cap => String.mk (trimL cap))

/-- Fuel-indexed removal of the first heading match, including the heading
line's trailing newlines (`content.replace(/^\s*#\s+.+$\n*/m, "")`). -/
def rfhGas : Nat → List Char → List Char
  | 0, l => l
  | g + 1, l =>
    match matchHeadingAt l with
    | some (_, rest) => rest
    | none =>
      let pre := l.takeWhile (fun c => !isNLChar c)
      match l.dropWhile (fun c => !isNLChar c) with
      | [] => l
      | c :: rest => pre ++ c :: rfhGas g rest

/-- Remove the first heading line (with its trailing blank lines). -/
def removeFirstHeading (s : String) : String :=
  String.mk (rfhGas s.data.length s.data)

/-- The `sidebar_label` → `sidebarTitle` rename condition:
`parsed.data.sidebar_label && !parsed.data.sidebarTitle`. -/
def renameApplies (d : FMData) : Bool :=
  optTruthy d.sidebar_label && !optTruthy d.sidebarTitle

/-- The title-extraction condition: no (truthy) title in the metadata and
a (truthy) first heading in the body. -/
def titleRuleApplies (d : FMData) (body : String) : Bool :=
  !optTruthy d.title && optTruthy (extractFirstHeading body)

/-- `processMarkdownFrontmatter(content, filePath)`.  The `filePath`
argument of the source function only feeds the Position Cache
(`sidebar_position` collection) and never influences the returned text,
so the text transform is a function of the content alone; the recorded
ordering hint is modelled separately by `collectSidebarPosition`.  The
`catch` branch returns the original content. -/
def processMarkdownFrontmatter (content : String) : String :=
  match matterParse content with
  | none => content
  | some (d, body) =>
    let d1 :=
      if renameApplies d then
        { d with sidebarTitle := d.sidebar_label, sidebar_label := none }
      else d
    let heading :=
      if !optTruthy d.title then extractFirstHeading body else none
    let d2 := if optTruthy heading then { d1 with title := heading } else d1
    let contentToUse :=
      if optTruthy heading then removeFirstHeading body else body
    if renameApplies d || optTruthy heading then stringifyFM d2 contentToUse
    else content

/-- The ordering hint recorded into the Position Cache for a file, when its
metadata declares a numeric `sidebar_position`. -/
def collectSidebarPosition (content : String) : Option Int :=
  match matterParse content with
  | none => none
  | some (d, _) => d.sidebar_position

/-! ## Edit-page injection (`injectEditPageComponent`)

Paths are modelled workspace-root-relative (the source resolves absolute
paths and immediately takes `path.relative` against the workspace root or
the submodule root, so only the relative shape matters).  The
version-control last-modified lookup (`getGitLastModified`) is an
external collaborator; its result is threaded in as an
`Option String`. -/

/-- `getEditUrlFromSource(sourcePath)`: a GitHub edit URL for the file,
pointing into the submodule repository when the source lives under
`submodules/<name>/`, and into the docs repository otherwise. -/
def getEditUrlFromSource (srcPath : String) : String :=
  if strStartsWith srcPath ("submodules/") then
    let rest := srcPath.data.drop (("submodules/").data.length)
    match splitAtChar '/' rest with
    | some (name, fileInSub) =>
      "https://github.com/divvi-xyz/" ++ String.mk name ++ "/edit/main/" ++
        String.mk fileInSub
    | none => "https://github.com/divvi-xyz/" ++ String.mk rest ++ "/edit/main/"
  else "https://github.com/divvi-xyz/docs/edit/main/" ++ srcPath

/-- The appended snippet text (the template literal `editComponent`). -/
def editComponentText (editUrl : String) (lastModified : Option String) : String :=
  "\n\nimport \x7b EditPage \x7d from '/snippets/edit-page.jsx';\n\n<EditPage editUrl=\"" ++
    editUrl ++ "\" lastModified=\"" ++ lastModified.getD "" ++ "\" />"

/-- `injectEditPageComponent(content, destFile, srcFile)` with
`relativePath = path.relative(GENERATED_DIR, destFile)` passed directly:
snippet-destined files are returned untouched, every other file gets the
edit component appended after its body. -/
def injectEditPageComponent (content relativePath srcPath : String)
    (lastModified : Option String) : String :=
  if strStartsWith relativePath ("snippets/") then content
  else content ++ editComponentText (getEditUrlFromSource srcPath) lastModified

/-- The full per-file content transform of the materializer for markup
files: frontmatter processing, then link conversion, then edit-component
injection (the body of the `needsLinkProcessing` branch of
`copyRecursively`). -/
def transformMaterialized (content destRel srcPath : String)
    (lastModified : Option String) : String :=
  injectEditPageComponent
    (convertLocalMarkdownLinks (processMarkdownFrontmatter content))
    destRel srcPath lastModified

/-! ## Content Materializer file step (`copyRecursively`, file branch) -/

/-- A source file as seen by the materializer: its path (workspace
relative), content, and `lstat` times (epoch milliseconds). -/
structure SrcFile where
  path : String
  content : String
  atime : Nat
  mtime : Nat
deriving DecidableEq

/-- The destination file state (content and modified time). -/
structure DestFile where
  content : String
  mtime : Nat
deriving DecidableEq

/-- Observable effects of one file step. -/
inductive FileAction where
  | read
  | transform
  | write
  | copy
deriving DecidableEq

/-- The `.md` → `.mdx` destination rename (`dest.replace(/\.md$/, ".mdx")`). -/
def replaceMdSuffix (s : String) : String :=
  if strEndsWith s (".md") then String.mk (s.data.take (s.data.length - 3) ++ (".mdx").data) else s

/-- The destination path for a source file (renamed only for `.md`
sources). -/
def destFilePath (dest srcPath : String) : String :=
  if strEndsWith srcPath (".md") && !strEndsWith srcPath (".mdx") then
    replaceMdSuffix dest
  else dest

/-- One execution of the file branch of `copyRecursively`: given the
source file, the current destination state (at the renamed destination
path), the destination-relative path and the version-control timestamp,
produce the new destination state and the actions performed.  The mtime
skip check, the transform pipeline for markup files, the verbatim copy
with preserved timestamps for other files, and the `utimesSync` that
forces the destination mtime back to the source mtime are modelled
directly. -/
def copyFileStep (src : SrcFile) (dest : Option DestFile) (destRel : String)
    (lastModified : Option String) : Option DestFile × List FileAction :=
  let isMarkdownFile := strEndsWith src.path (".md") && !strEndsWith src.path (".mdx")
  let isMdxFile := strEndsWith src.path (".mdx")
  let needsLinkProcessing := isMarkdownFile || isMdxFile
  let shouldCopy :=
    match dest with
    | some d => !(src.mtime == d.mtime)
    | none => true
  if shouldCopy then
    if needsLinkProcessing then
      (some ⟨transformMaterialized src.content destRel src.path lastModified,
             src.mtime⟩,
       [FileAction.read, FileAction.transform, FileAction.write])
    else
      (some ⟨src.content, src.mtime⟩, [FileAction.copy])
  else (dest, [])

/-! ## Navigation Synthesizer (`generatePagesFromFolder`) -/

/-- A navigation item: a page path or a nested group. -/
inductive NavItem where
  | page (path : String)
  | group (name : String) (pages : List NavItem)

/-- A materialized folder: markup/other file names and named
subdirectories. -/
inductive Folder where
  | node (files : List String) (dirs : List (String × Folder))

/-- Lowercasing of a string, character by character (model of
`toLowerCase` as used through the case-insensitive regex flag). -/
def toLowerStr (s : String) : String := String.mk (s.data.map Char.toLower)

/-- `/^(readme|index)\.(md|mdx)$/i.test(name)`. -/
def isReadmeOrIndex (name : String) : Bool :=
  let l := toLowerStr name
  l == "readme.md" || l == "readme.mdx" || l == "index.md" || l == "index.mdx"

/-- The file filters of `generatePagesFromFolder`: markup extension, not
`docs.json`, name not starting with `_`. -/
def keepFile (n : String) : Bool :=
  (strEndsWith n (".md") || strEndsWith n (".mdx")) &&
    n != "docs.json" && !strStartsWith n ("_")

/-- `fileName.replace(/\.(md|mdx)$/, "")`. -/
def stripPageExt (n : String) : String :=
  if strEndsWith n (".mdx") then String.mk (n.data.take (n.data.length - 4))
  else if strEndsWith n (".md") then String.mk (n.data.take (n.data.length - 3))
  else n

/-- `prefix ? `${prefix}/${name}` : name` (the empty string is falsy). -/
def joinKey (pre n : String) : String :=
  if pre = "" then n else pre ++ "/" ++ n

/-- Comparison of cached sidebar positions, an absent entry being
`Infinity` (`sidebarPositions.get(...) ?? Infinity`; `Infinity - Infinity`
falls through the `!==` guard to the alphabetical tie-break). -/
def cmpPos : Option Int → Option Int → Ordering
  | none, none => .eq
  | none, some _ => .gt
  | some _, none => .lt
  | some a, some b => intCmp a b

/-- The file sort comparator of `generatePagesFromFolder`: readme/index
first (alphabetical among themselves), then by cached position, then
alphabetical. -/
def fileCmp (pos : String → Option Int) (a b : String) : Ordering :=
  let ap := isReadmeOrIndex a
  let bp := isReadmeOrIndex b
  if ap != bp then (if ap then .lt else .gt)
  else if ap then localeCmp a b
  else
    match cmpPos (pos a) (pos b) with
    | .eq => localeCmp a b
    | o => o

/-- Stable insertion into a sorted list (equal elements keep their
original relative order, as `Array.prototype.sort` guarantees). -/
def insertBy (cmp : α → α → Ordering) (x : α) : List α → List α
  | [] => [x]
  | y :: ys => if cmp x y = Ordering.gt then y :: insertBy cmp x ys else x :: y :: ys

/-- Stable comparator sort (model of `Array.prototype.sort`). -/
def sortBy (cmp : α → α → Ordering) (l : List α) : List α :=
  l.foldr (insertBy cmp) []

/-- Fuel-indexed `generatePagesFromFolder(folderPath, prefix)`:
markup files (filtered and sorted) become pages first, then alphabetically
sorted subdirectories become nested groups, but only when their subtree
yields at least one page.  The Position Cache `pos` is keyed by
destination-relative path, which coincides with the page path prefix at
every call site.  The fuel only needs to be at least the tree size. -/
def genGas (pos : String → Option Int) : Nat → Folder → String → List NavItem
  | 0, _, _ => []
  | g + 1, Folder.node files dirs, pre =>
    let sortedFiles := sortBy (fileCmp (fun n => pos (joinKey pre n))) (files.filter keepFile)
    let filePages := sortedFiles.map (fun n => NavItem.page (joinKey pre (stripPageExt n)))
    let sortedDirs := sortBy (fun a b => localeCmp a.1 b.1) dirs
    let dirPages := sortedDirs.filterMap (fun d =>
      let sub := genGas pos g d.2 (joinKey pre d.1)
      if 0 < sub.length then some (NavItem.group d.1 sub) else none)
    filePages ++ dirPages

mutual

/-- Size of a folder tree (used as recursion fuel). -/
def folderSize : Folder → Nat
  | Folder.node _ dirs => 1 + dirsSize dirs

/-- Total size of a subdirectory list. -/
def dirsSize : List (String × Folder) → Nat
  | [] => 0
  | d :: rest => folderSize d.2 + dirsSize rest

end

/-- `generatePagesFromFolder(folderPath, prefix)`. -/
def generatePagesFromFolder (pos : String → Option Int) (t : Folder)
    (pre : String) : List NavItem :=
  genGas pos (folderSize t) t pre

mutual

/-- No group node anywhere in this item has an empty page list. -/
def navNoEmpty : NavItem → Bool
  | NavItem.page _ => true
  | NavItem.group _ ps => !ps.isEmpty && navAllNoEmpty ps

/-- `navNoEmpty` over a list of items. -/
def navAllNoEmpty : List NavItem → Bool
  | [] => true
  | p :: rest => navNoEmpty p && navAllNoEmpty rest

end

/-! ## Helper lemmas -/

theorem strMkData (s : String) : String.mk s.data = s := rfl

theorem splitAtChar_eq {c : Char} :
    ∀ {l a b : List Char}, splitAtChar c l = some (a, b) → l = a ++ c :: b := by
  intro l
  induction l with
  | nil => intro a b h; simp [splitAtChar] at h
  | cons x xs ih =>
    intro a b h
    by_cases hx : x = c
    · simp [splitAtChar, hx] at h
      obtain ⟨ha, hb⟩ := h
      subst ha; subst hb; subst hx; rfl
    · simp only [splitAtChar, if_neg hx] at h
      cases hs : splitAtChar c xs with
      | none => rw [hs] at h; simp at h
      | some p =>
        rw [hs] at h
        simp only [Option.map_some', Option.some.injEq, Prod.mk.injEq] at h
        obtain ⟨ha, hb⟩ := h
        subst hb
        have := ih hs
        subst ha
        simp [this]

theorem splitAtChar_append {c : Char} :
    ∀ {a : List Char}, c ∉ a → ∀ (b : List Char), splitAtChar c (a ++ c :: b) = some (a, b) := by
  intro a
  induction a with
  | nil => intro _ b; simp [splitAtChar]
  | cons x xs ih =>
    intro hmem b
    have hx : x ≠ c := fun h => hmem (h ▸ List.mem_cons_self x xs)
    have hxs : c ∉ xs := fun h => hmem (List.mem_cons_of_mem x h)
    have step : splitAtChar c (x :: (xs ++ c :: b)) =
        (splitAtChar c (xs ++ c :: b)).map (fun p => (x :: p.1, p.2)) := by
      simp [splitAtChar, hx]
    rw [List.cons_append, step, ih hxs b]
    rfl

theorem tryMatchLink_eq :
    ∀ {l lab tgt rest : List Char}, tryMatchLink l = some (lab, tgt, rest) →
      l = lab ++ ']' :: '(' :: (tgt ++ ')' :: rest) := by
  intro l lab tgt rest h
  unfold tryMatchLink at h
  split at h
  next => simp at h
  next p lab1 r1 heq1 =>
    split at h
    next c r2 =>
      split at h
      next hc =>
        split at h
        next => simp at h
        next q tgt1 rest1 heq2 =>
          split at h
          next => simp at h
          next hne =>
            simp only [Option.some.injEq, Prod.mk.injEq] at h
            obtain ⟨h1, h2, h3⟩ := h
            subst h1; subst h2; subst h3; subst hc
            rw [splitAtChar_eq heq1, splitAtChar_eq heq2]
      next hc => simp at h
    next => simp at h

theorem tryMatchLink_append {lab tgt rest : List Char}
    (hlab : ']' ∉ lab) (htgt : ')' ∉ tgt) (hne : tgt ≠ []) :
    tryMatchLink (lab ++ ']' :: '(' :: (tgt ++ ')' :: rest)) = some (lab, tgt, rest) := by
  have hempty : tgt.isEmpty = false := by
    cases tgt
    · exact absurd rfl hne
    · rfl
  simp [tryMatchLink, splitAtChar_append hlab, splitAtChar_append htgt, hempty]

theorem scanGas_nil : ∀ g, scanGas g [] = [] := by
  intro g; cases g <;> rfl

theorem scanGas_fixed :
    ∀ (g : Nat) (l : List Char), l.length ≤ g → fixedGas g l = true → scanGas g l = l := by
  intro g
  induction g with
  | zero => intro l _ _; rfl
  | succ g ih =>
    intro l hlen hfix
    cases l with
    | nil => rfl
    | cons c rest =>
      have hrest : rest.length ≤ g := by simpa using hlen
      by_cases hc : c = '['
      · cases hm : tryMatchLink rest with
        | none =>
          have e1 : scanGas (g + 1) (c :: rest) = c :: scanGas g rest := by
            simp [scanGas, hc, hm]
          have e2 : fixedGas (g + 1) (c :: rest) = fixedGas g rest := by
            simp [fixedGas, hc, hm]
          rw [e2] at hfix
          rw [e1, ih rest hrest hfix]
        | some trip =>
          obtain ⟨lab, tgt, rem⟩ := trip
          have hdec := tryMatchLink_eq hm
          have e1 : scanGas (g + 1) (c :: rest) = rewriteLink lab tgt ++ scanGas g rem := by
            simp [scanGas, hc, hm]
          have e2 : fixedGas (g + 1) (c :: rest) =
              ((convertTargetL tgt == tgt) && fixedGas g rem) := by
            simp [fixedGas, hc, hm]
          rw [e2, Bool.and_eq_true, beq_iff_eq] at hfix
          obtain ⟨htgt, hrem⟩ := hfix
          have hremlen : rem.length ≤ g := by
            have : rest.length = lab.length + 1 + (1 + (tgt.length + (1 + rem.length))) := by
              rw [hdec]; simp
              omega
            omega
          rw [e1, rewriteLink, htgt, ih rem hremlen hrem, hdec, hc]
          simp
      · have e1 : scanGas (g + 1) (c :: rest) = c :: scanGas g rest := by
          simp [scanGas, hc]
        have e2 : fixedGas (g + 1) (c :: rest) = fixedGas g rest := by
          simp [fixedGas, hc]
        rw [e2] at hfix
        rw [e1, ih rest hrest hfix]

theorem navAllNoEmpty_append (a b : List NavItem) :
    navAllNoEmpty (a ++ b) = (navAllNoEmpty a && navAllNoEmpty b) := by
  induction a with
  | nil => simp [navAllNoEmpty]
  | cons x xs ih => simp [navAllNoEmpty, ih, Bool.and_assoc]

theorem navAllNoEmpty_iff (l : List NavItem) :
    navAllNoEmpty l = true ↔ ∀ x ∈ l, navNoEmpty x = true := by
  induction l with
  | nil => simp [navAllNoEmpty]
  | cons x xs ih => simp [navAllNoEmpty, ih]

theorem mem_insertBy {cmp : α → α → Ordering} {x a : α} :
    ∀ {l : List α}, x ∈ insertBy cmp a l → x = a ∨ x ∈ l := by
  intro l
  induction l with
  | nil => intro h; simp [insertBy] at h; exact Or.inl h
  | cons y ys ih =>
    intro h
    simp only [insertBy] at h
    split at h
    · rcases List.mem_cons.mp h with h1 | h1
      · exact Or.inr (List.mem_cons.mpr (Or.inl h1))
      · rcases ih h1 with h2 | h2
        · exact Or.inl h2
        · exact Or.inr (List.mem_cons.mpr (Or.inr h2))
    · rcases List.mem_cons.mp h with h1 | h1
      · exact Or.inl h1
      · exact Or.inr h1

theorem mem_sortBy {cmp : α → α → Ordering} {x : α} :
    ∀ {l : List α}, x ∈ sortBy cmp l → x ∈ l := by
  intro l
  induction l with
  | nil => intro h; simp [sortBy] at h
  | cons y ys ih =>
    intro h
    have : x ∈ insertBy cmp y (sortBy cmp ys) := h
    rcases mem_insertBy this with h1 | h1
    · exact h1 ▸ List.mem_cons_self y ys
    · exact List.mem_cons_of_mem y (ih h1)

theorem dirsSize_mem {d : String × Folder} :
    ∀ {dirs : List (String × Folder)}, d ∈ dirs → folderSize d.2 ≤ dirsSize dirs := by
  intro dirs
  induction dirs with
  | nil => intro h; simp at h
  | cons e es ih =>
    intro h
    rcases List.mem_cons.mp h with h1 | h1
    · subst h1; simp only [dirsSize]; omega
    · have := ih h1; simp only [dirsSize]; omega

theorem folderSize_pos (t : Folder) : 1 ≤ folderSize t := by
  cases t; simp [folderSize]

theorem genGas_fuel (pos : String → Option Int) :
    ∀ (g g' : Nat) (t : Folder) (pre : String), folderSize t ≤ g → folderSize t ≤ g' →
      genGas pos g t pre = genGas pos g' t pre := by
  intro g
  induction g with
  | zero =>
    intro g' t pre h _
    exact absurd h (by have := folderSize_pos t; omega)
  | succ g ih =>
    intro g' t pre hg hg'
    obtain ⟨files, dirs⟩ := t
    cases g' with
    | zero => exact absurd hg' (by have := folderSize_pos (Folder.node files dirs); omega)
    | succ g1 =>
      simp only [genGas]
      congr 1
      apply List.filterMap_congr
      intro d hd
      have hmem : d ∈ dirs := mem_sortBy hd
      have hsz : folderSize d.2 ≤ dirsSize dirs := dirsSize_mem hmem
      have hsz1 : folderSize (Folder.node files dirs) = 1 + dirsSize dirs := rfl
      rw [ih g1 d.2 (joinKey pre d.1) (by omega) (by omega)]

theorem genGas_noEmpty (pos : String → Option Int) :
    ∀ (g : Nat) (t : Folder) (pre : String), folderSize t ≤ g →
      navAllNoEmpty (genGas pos g t pre) = true := by
  intro g
  induction g with
  | zero =>
    intro t pre h
    exact absurd h (by have := folderSize_pos t; omega)
  | succ g ih =>
    intro t pre hg
    obtain ⟨files, dirs⟩ := t
    simp only [genGas, navAllNoEmpty_append, Bool.and_eq_true]
    constructor
    · rw [navAllNoEmpty_iff]
      intro x hx
      rcases List.mem_map.mp hx with ⟨n, _, rfl⟩
      rfl
    · rw [navAllNoEmpty_iff]
      intro x hx
      rcases List.mem_filterMap.mp hx with ⟨d, hd, hfd⟩
      have hmem : d ∈ dirs := mem_sortBy hd
      have hsz : folderSize d.2 ≤ dirsSize dirs := dirsSize_mem hmem
      have hsz1 : folderSize (Folder.node files dirs) = 1 + dirsSize dirs := rfl
      split at hfd
      · rename_i hlen
        have hx2 := Option.some.inj hfd
        subst hx2
        have hsub := ih d.2 (joinKey pre d.1) (by omega)
        simp only [navNoEmpty, hsub, Bool.and_true]
        cases hgen : genGas pos g d.2 (joinKey pre d.1) with
        | nil => rw [hgen] at hlen; simp at hlen
        | cons a as => rfl
      · simp at hfd

theorem process_matterParse_none {c : String} (h : matterParse c = none) :
    processMarkdownFrontmatter c = c := by
  unfold processMarkdownFrontmatter
  rw [h]

theorem isPfx_self_append : ∀ (a b : List Char), isPfx a (a ++ b) = true := by
  intro a b
  induction a with
  | nil => rfl
  | cons x xs ih => simp [isPfx, ih]

theorem convertTargetL_skip {p : List Char}
    (h : p.contains '=' = true ∨ hasSub (("://").data) p = true ∨
         p.contains '?' = true ∨ isPfx (("http://").data) p = true ∨
         isPfx (("https://").data) p = true) :
    convertTargetL p = p := by
  unfold convertTargetL
  by_cases h1 : (isPfx (("http://").data) p || isPfx (("https://").data) p) = true
  · rw [if_pos h1]
  · rw [if_neg h1]
    have h2 : (hasSub (("://").data) p || p.contains '?' || p.contains '=') = true := by
      rcases h with h | h | h | h | h
      · simp at h; simp [h]
      · simp [h]
      · simp at h; simp [h]
      · exact absurd (by simp [h]) h1
      · exact absurd (by simp [h]) h1
    rw [if_pos h2]

/-! ## Claim theorems -/

/-- C4 counterexample: the link rewriter is not idempotent.  For the link
`[x](a.md.md)` the first run strips the final `.md` and yields
`[x](./a.md)`; a second run strips again and yields `[x](./a)`. -/
theorem c4_counterexample :
    convertLocalMarkdownLinks (convertLocalMarkdownLinks ("[x](a.md.md)")) ≠
      convertLocalMarkdownLinks ("[x](a.md.md)") := by
  decide

/-- C4 (amended): the link rewriter is idempotent on every text whose
once-rewritten form has all of its link targets already in converted form
(which holds for all of the documented example links); a target that still
contains a strippable markup extension after one rewrite, such as
`a.md.md`, is rewritten again. -/
theorem c4_idempotent_on_fixed :
    ∀ s : String, linksFixed (convertLocalMarkdownLinks s) = true →
      convertLocalMarkdownLinks (convertLocalMarkdownLinks s) =
        convertLocalMarkdownLinks s := by
  intro s h
  have hfix : fixedGas (convertLocalMarkdownLinks s).data.length
      (convertLocalMarkdownLinks s).data = true := h
  have hscan := scanGas_fixed (convertLocalMarkdownLinks s).data.length
    (convertLocalMarkdownLinks s).data (le_refl _) hfix
  show String.mk (scanGas (convertLocalMarkdownLinks s).data.length
      (convertLocalMarkdownLinks s).data) = convertLocalMarkdownLinks s
  rw [hscan]

/-- C4 witness: a text with two documented-style links is rewritten to a
fixed point, and re-running the rewriter on it is a no-op. -/
theorem c4_idempotent_on_fixed_witness :
    linksFixed (convertLocalMarkdownLinks ("see [x](README.md) and [y](file.md#sec)")) = true ∧
    convertLocalMarkdownLinks
        (convertLocalMarkdownLinks ("see [x](README.md) and [y](file.md#sec)")) =
      convertLocalMarkdownLinks ("see [x](README.md) and [y](file.md#sec)") :=
  ⟨by decide, c4_idempotent_on_fixed ("see [x](README.md) and [y](file.md#sec)") (by decide)⟩

/-- C5: when a destination file exists and its modified time equals the
source's, the file step is a no-op: no read, no transform, no write, and
the destination's bytes and timestamp are unchanged. -/
theorem c5_skip_on_equal_mtime :
    ∀ (src : SrcFile) (d : DestFile) (destRel : String) (lm : Option String),
      d.mtime = src.mtime →
      copyFileStep src (some d) destRel lm = (some d, []) := by
  intro src d destRel lm h
  simp [copyFileStep, h]

/-- C5 witness: a concrete up-to-date destination is skipped untouched. -/
theorem c5_skip_on_equal_mtime_witness :
    copyFileStep ⟨"docs/a.md", "new content", 1, 7⟩
        (some ⟨"old transformed content", 7⟩) ("a.mdx") none =
      (some ⟨"old transformed content", 7⟩, []) :=
  c5_skip_on_equal_mtime ⟨"docs/a.md", "new content", 1, 7⟩
    ⟨"old transformed content", 7⟩ ("a.mdx") none rfl

/-- C10: the per-link conversion returns any target containing `=`, `://`
or `?`, or starting with `http://` or `https://`, verbatim — no extension
stripping and no `./` prefixing — and on a full text such a link is left
unchanged by the rewriter. -/
theorem c10_skip_targets_verbatim :
    (∀ p : String,
       p.data.contains '=' = true ∨ hasSub (("://").data) p.data = true ∨
       p.data.contains '?' = true ∨ isPfx (("http://").data) p.data = true ∨
       isPfx (("https://").data) p.data = true →
       convertTarget p = p) ∧
    (∀ (lab tgt : String), ']' ∉ lab.data → ')' ∉ tgt.data → tgt.data ≠ [] →
       (tgt.data.contains '=' = true ∨ hasSub (("://").data) tgt.data = true ∨
        tgt.data.contains '?' = true ∨ isPfx (("http://").data) tgt.data = true ∨
        isPfx (("https://").data) tgt.data = true) →
       convertLocalMarkdownLinks ("[" ++ lab ++ "](" ++ tgt ++ ")") =
         "[" ++ lab ++ "](" ++ tgt ++ ")") := by
  constructor
  · intro p h
    show String.mk (convertTargetL p.data) = p
    rw [convertTargetL_skip h]
  · intro lab tgt hlab htgt hne hskip
    have hfix : convertTargetL tgt.data = tgt.data := convertTargetL_skip hskip
    apply String.ext
    have hdata : ("[" ++ lab ++ "](" ++ tgt ++ ")").data =
        '[' :: (lab.data ++ ']' :: '(' :: tgt.data ++ ')' :: []) := by
      simp [String.data_append]
    show scanGas ("[" ++ lab ++ "](" ++ tgt ++ ")").data.length
        ("[" ++ lab ++ "](" ++ tgt ++ ")").data = ("[" ++ lab ++ "](" ++ tgt ++ ")").data
    rw [hdata]
    have hm := @tryMatchLink_append lab.data tgt.data [] hlab htgt hne
    simp [scanGas, hm, scanGas_nil, rewriteLink, hfix]

/-- C10 witness: concrete skipped targets (`a=b`, `ftp://x`, `a?b`,
`http://x`, `https://x`) are returned verbatim, and a full link with a
query target is left unchanged. -/
theorem c10_skip_targets_verbatim_witness :
    convertTarget ("a=b") = "a=b" ∧ convertTarget ("ftp://x.md") = "ftp://x.md" ∧
    convertTarget ("a.md?v=1") = "a.md?v=1" ∧ convertTarget ("http://e.com/f.md") = "http://e.com/f.md" ∧
    convertTarget ("https://e.com/f.md") = "https://e.com/f.md" ∧
    convertLocalMarkdownLinks ("[x](a.md?v=1)") = "[x](a.md?v=1)" :=
  ⟨c10_skip_targets_verbatim.1 ("a=b") (Or.inl (by decide)),
   c10_skip_targets_verbatim.1 ("ftp://x.md") (Or.inr (Or.inl (by decide))),
   c10_skip_targets_verbatim.1 ("a.md?v=1") (Or.inr (Or.inr (Or.inl (by decide)))),
   c10_skip_targets_verbatim.1 ("http://e.com/f.md") (Or.inr (Or.inr (Or.inr (Or.inl (by decide))))),
   c10_skip_targets_verbatim.1 ("https://e.com/f.md") (Or.inr (Or.inr (Or.inr (Or.inr (by decide))))),
   c10_skip_targets_verbatim.2 ("x") ("a.md?v=1") (by decide) (by decide) (by decide)
     (Or.inr (Or.inr (Or.inl (by decide))))⟩

/-- The Position Cache of claim C1: `alpha.md` has ordering hint 2,
`beta.md` has ordering hint 1, the other files have none. -/
def posC1 : String → Option Int :=
  fun k => if k = "alpha.md" then some 2 else if k = "beta.md" then some 1 else none

/-- C1: for `index.md`, `zeta.md` (no hint), `alpha.md` (hint 2),
`beta.md` (hint 1) the synthesized order is index, beta, alpha, zeta;
readme/index files always sort first, an absent cache value sorts after
every present one, and position ties break alphabetically. -/
theorem c1_sort_precedence :
    (generatePagesFromFolder posC1
        (Folder.node ["index.md", "zeta.md", "alpha.md", "beta.md"] []) "" =
      [NavItem.page ("index"), NavItem.page ("beta"),
       NavItem.page ("alpha"), NavItem.page ("zeta")]) ∧
    (∀ (pos : String → Option Int) (a b : String),
       isReadmeOrIndex a = true → isReadmeOrIndex b = false →
       fileCmp pos a b = Ordering.lt) ∧
    (∀ (pos : String → Option Int) (a b : String) (n : Int),
       isReadmeOrIndex a = false → isReadmeOrIndex b = false →
       pos a = some n → pos b = none → fileCmp pos a b = Ordering.lt) ∧
    (∀ (pos : String → Option Int) (a b : String),
       isReadmeOrIndex a = false → isReadmeOrIndex b = false →
       pos a = pos b → fileCmp pos a b = localeCmp a b) := by
  refine ⟨by rfl, ?_, ?_, ?_⟩
  · intro pos a b ha hb
    simp [fileCmp, ha, hb]
  · intro pos a b n ha hb hpa hpb
    simp [fileCmp, ha, hb, hpa, hpb, cmpPos]
  · intro pos a b ha hb hp
    have hcp : cmpPos (pos a) (pos b) = Ordering.eq := by
      rw [hp]
      cases pos b with
      | none => rfl
      | some v => simp [cmpPos, intCmp]
    simp [fileCmp, ha, hb, hcp]

/-- C1 witness: the comparator facts instantiated on the example files. -/
theorem c1_sort_precedence_witness :
    fileCmp posC1 "index.md" "zeta.md" = Ordering.lt ∧
    fileCmp posC1 "alpha.md" "zeta.md" = Ordering.lt ∧
    fileCmp posC1 "gamma.md" "zeta.md" = localeCmp "gamma.md" "zeta.md" :=
  ⟨c1_sort_precedence.2.1 posC1 "index.md" "zeta.md" (by decide) (by decide),
   c1_sort_precedence.2.2.1 posC1 "alpha.md" "zeta.md" 2 (by decide) (by decide)
     (by decide) (by decide),
   c1_sort_precedence.2.2.2 posC1 "gamma.md" "zeta.md" (by decide) (by decide)
     (by decide)⟩

/-- C2 counterexample: a file whose metadata block fails to parse is not
written back byte-identically — the materializer still applies link
rewriting and edit-component injection, so the written content differs
from the original source text. -/
theorem c2_counterexample :
    matterParse ("---\n\x7binvalid\n---\n[x](a.md)") = none ∧
    transformMaterialized ("---\n\x7binvalid\n---\n[x](a.md)") ("a.mdx") ("docs/a.md") none ≠
      ("---\n\x7binvalid\n---\n[x](a.md)") := by
  constructor
  · decide
  · decide

/-- C2 (amended): when the frontmatter of a markup file fails to parse,
the frontmatter stage returns the content unchanged (the failure is
non-fatal — the step still produces a written file), and the file is
written with link rewriting and edit-component injection still applied to
that unchanged content. -/
theorem c2_frontmatter_failure_nonfatal :
    ∀ (src : SrcFile) (destRel : String) (lm : Option String),
      matterParse src.content = none →
      strEndsWith src.path (".md") = true → strEndsWith src.path (".mdx") = false →
      processMarkdownFrontmatter src.content = src.content ∧
      copyFileStep src none destRel lm =
        (some ⟨injectEditPageComponent (convertLocalMarkdownLinks src.content)
                 destRel src.path lm, src.mtime⟩,
         [FileAction.read, FileAction.transform, FileAction.write]) := by
  intro src destRel lm hp hmd hmdx
  refine ⟨process_matterParse_none hp, ?_⟩
  simp [copyFileStep, hmd, hmdx, transformMaterialized, process_matterParse_none hp]

/-- C2 witness: the amended behavior on the concrete malformed file. -/
theorem c2_frontmatter_failure_nonfatal_witness :
    processMarkdownFrontmatter ("---\n\x7bbad\n---\nsee [y](b.md)") =
      ("---\n\x7bbad\n---\nsee [y](b.md)") ∧
    copyFileStep ⟨"docs/b.md", "---\n\x7bbad\n---\nsee [y](b.md)", 3, 9⟩ none ("b.mdx") none =
      (some ⟨injectEditPageComponent
               (convertLocalMarkdownLinks ("---\n\x7bbad\n---\nsee [y](b.md)"))
               ("b.mdx") ("docs/b.md") none, 9⟩,
       [FileAction.read, FileAction.transform, FileAction.write]) :=
  c2_frontmatter_failure_nonfatal ⟨"docs/b.md", "---\n\x7bbad\n---\nsee [y](b.md)", 3, 9⟩
    ("b.mdx") none (by decide) (by decide) (by decide)

/-- C3 counterexample: the materialization transform is not deterministic
given only (content, destination path): with the same content `"x"` and
the same destination `guide.mdx`, two runs whose version-control
last-modified lookups differ produce different output bytes. -/
theorem c3_counterexample :
    transformMaterialized ("x") ("guide.mdx") ("docs/guide.md")
        (some ("2024-01-02T03:04:05.000Z")) ≠
      transformMaterialized ("x") ("guide.mdx") ("docs/guide.md") none := by
  decide

/-- C3 (amended): the transform is deterministic given the file content,
the destination path, the source path and the version-control
last-modified value (it is a pure function of those four inputs, the
timestamp entering only through its rendered string); for snippet-destined
files it depends only on (content, destination path). -/
theorem c3_transform_determinism_inputs :
    (∀ (c destRel s : String) (lm lm' : Option String),
       lm.getD "" = lm'.getD "" →
       transformMaterialized c destRel s lm = transformMaterialized c destRel s lm') ∧
    (∀ (c destRel s s' : String) (lm lm' : Option String),
       strStartsWith destRel ("snippets/") = true →
       transformMaterialized c destRel s lm = transformMaterialized c destRel s' lm') := by
  constructor
  · intro c destRel s lm lm' h
    simp [transformMaterialized, injectEditPageComponent, editComponentText, h]
  · intro c destRel s s' lm lm' h
    simp [transformMaterialized, injectEditPageComponent, h]

/-- C3 witness: the amended determinism on concrete inputs. -/
theorem c3_transform_determinism_inputs_witness :
    transformMaterialized ("x") ("guide.mdx") ("docs/guide.md") (some "") =
      transformMaterialized ("x") ("guide.mdx") ("docs/guide.md") none ∧
    transformMaterialized ("x") ("snippets/s.mdx") ("docs/a.md") (some "2024") =
      transformMaterialized ("x") ("snippets/s.mdx") ("docs/b.md") none :=
  ⟨c3_transform_determinism_inputs.1 ("x") ("guide.mdx") ("docs/guide.md")
     (some "") none (by decide),
   c3_transform_determinism_inputs.2 ("x") ("snippets/s.mdx") ("docs/a.md")
     ("docs/b.md") (some "2024") none (by decide)⟩

/-- C6: whenever the file step writes — transformed markup or verbatim
copy — the resulting destination's modified time equals the source's
modified time exactly; and on a concrete markup file the written bytes
differ from the source while the timestamps coincide. -/
theorem c6_written_mtime_equals_source :
    (∀ (src : SrcFile) (dest : Option DestFile) (destRel : String) (lm : Option String),
       (copyFileStep src dest destRel lm).2 ≠ [] →
       ∃ f : DestFile, (copyFileStep src dest destRel lm).1 = some f ∧
         f.mtime = src.mtime) ∧
    (transformMaterialized ("hello") ("a.mdx") ("docs/a.md") none ≠ "hello" ∧
     copyFileStep ⟨"docs/a.md", "hello", 1, 7⟩ none ("a.mdx") none =
       (some ⟨transformMaterialized ("hello") ("a.mdx") ("docs/a.md") none, 7⟩,
        [FileAction.read, FileAction.transform, FileAction.write])) := by
  refine ⟨?_, by decide, by rfl⟩
  intro src dest destRel lm hact
  by_cases hnl : (strEndsWith src.path (".md") && !strEndsWith src.path (".mdx") ||
      strEndsWith src.path (".mdx")) = true
  · cases dest with
    | none =>
      exact ⟨⟨transformMaterialized src.content destRel src.path lm, src.mtime⟩,
             by simp [copyFileStep, hnl], rfl⟩
    | some d =>
      by_cases hmt : (src.mtime == d.mtime) = true
      · exact absurd (by simp [copyFileStep, hmt]) hact
      · have hmt' : (src.mtime == d.mtime) = false := by
          simpa using hmt
        exact ⟨⟨transformMaterialized src.content destRel src.path lm, src.mtime⟩,
               by simp [copyFileStep, hnl, hmt'], rfl⟩
  · have hnl' : (strEndsWith src.path (".md") && !strEndsWith src.path (".mdx") ||
        strEndsWith src.path (".mdx")) = false := by
      simpa using hnl
    cases dest with
    | none =>
      exact ⟨⟨src.content, src.mtime⟩, by simp [copyFileStep, hnl'], rfl⟩
    | some d =>
      by_cases hmt : (src.mtime == d.mtime) = true
      · exact absurd (by simp [copyFileStep, hmt]) hact
      · have hmt' : (src.mtime == d.mtime) = false := by
          simpa using hmt
        exact ⟨⟨src.content, src.mtime⟩, by simp [copyFileStep, hnl', hmt'], rfl⟩

/-- C6 witness: on a concrete written file the destination mtime equals
the source mtime. -/
theorem c6_written_mtime_equals_source_witness :
    ∃ f : DestFile,
      (copyFileStep ⟨"img/logo.png", "bytes", 2, 11⟩ none ("img/logo.png") none).1 = some f ∧
      f.mtime = (⟨"img/logo.png", "bytes", 2, 11⟩ : SrcFile).mtime :=
  c6_written_mtime_equals_source.1 ⟨"img/logo.png", "bytes", 2, 11⟩ none
    ("img/logo.png") none (by decide)

/-- C7: a document without a metadata title gets its title from the first
top-level heading, the heading line (with trailing blank lines) is removed
from the body (`"# Hello\nBody"` gives title `Hello` and body `Body`); a
document with a (truthy) title keeps its body unchanged — byte-identical
when the sidebar-label rename does not apply, re-serialized with the same
body when it does; and when neither rule applies the transformer returns
the original text unchanged. -/
theorem c7_title_extraction :
    (processMarkdownFrontmatter ("# Hello\nBody") =
       stringifyFM { title := some ("Hello") } ("Body")) ∧
    (∀ (c : String) (d : FMData) (body : String),
       matterParse c = some (d, body) → optTruthy d.title = true →
       renameApplies d = false → processMarkdownFrontmatter c = c) ∧
    (∀ (c : String) (d : FMData) (body : String),
       matterParse c = some (d, body) → optTruthy d.title = true →
       renameApplies d = true →
       processMarkdownFrontmatter c =
         stringifyFM { d with sidebarTitle := d.sidebar_label, sidebar_label := none } body) ∧
    (∀ (c : String) (d : FMData) (body : String),
       matterParse c = some (d, body) → renameApplies d = false →
       titleRuleApplies d body = false → processMarkdownFrontmatter c = c) := by
  refine ⟨by rfl, ?_, ?_, ?_⟩
  · intro c d body hp ht hr
    unfold processMarkdownFrontmatter
    rw [hp]
    simp only [ht, Bool.not_true, Bool.false_eq_true, if_false]
    simp [hr, optTruthy]
  · intro c d body hp ht hr
    unfold processMarkdownFrontmatter
    rw [hp]
    simp only [ht, Bool.not_true, Bool.false_eq_true, if_false]
    simp [hr, optTruthy]
  · intro c d body hp hr htr
    unfold processMarkdownFrontmatter
    rw [hp]
    by_cases ht : optTruthy d.title = true
    · simp only [ht, Bool.not_true, Bool.false_eq_true, if_false]
      simp [hr, optTruthy]
    · have ht' : optTruthy d.title = false := by simpa using ht
      have hext : optTruthy (extractFirstHeading body) = false := by
        simpa [titleRuleApplies, ht'] using htr
      simp only [ht', Bool.not_false, if_true, hext, Bool.false_eq_true, if_false]
      simp [hr]

/-- C7 witness: the general clauses instantiated on concrete documents —
an existing title is kept byte-identically, the rename case re-serializes
with the body intact, and a no-op document passes through unchanged. -/
theorem c7_title_extraction_witness :
    processMarkdownFrontmatter ("---\ntitle: T\n---\n# H\nbody") =
      ("---\ntitle: T\n---\n# H\nbody") ∧
    processMarkdownFrontmatter ("---\nsidebar_label: S\ntitle: T\n---\nbody") =
      stringifyFM { title := some ("T"), sidebarTitle := some ("S") } ("body") ∧
    processMarkdownFrontmatter ("plain body text") = ("plain body text") :=
  ⟨c7_title_extraction.2.1 ("---\ntitle: T\n---\n# H\nbody")
     { title := some ("T") } ("# H\nbody") (by decide) (by decide) (by decide),
   c7_title_extraction.2.2.1 ("---\nsidebar_label: S\ntitle: T\n---\nbody")
     { title := some ("T"), sidebar_label := some ("S") } ("body")
     (by decide) (by decide) (by decide),
   c7_title_extraction.2.2.2 ("plain body text") {} ("plain body text")
     (by decide) (by decide) (by decide)⟩

/-- C8: the synthesized navigation never contains an empty group — every
group node anywhere in the generated tree has a nonempty page list — and a
directory whose files are all filtered out and whose subdirectories all
yield no pages produces zero navigation items. -/
theorem c8_no_empty_groups :
    (∀ (pos : String → Option Int) (t : Folder) (pre : String),
       navAllNoEmpty (generatePagesFromFolder pos t pre) = true) ∧
    (∀ (pos : String → Option Int) (files : List String)
       (dirs : List (String × Folder)) (pre : String),
       files.filter keepFile = [] →
       (∀ d ∈ dirs, generatePagesFromFolder pos d.2 (joinKey pre d.1) = []) →
       generatePagesFromFolder pos (Folder.node files dirs) pre = []) := by
  constructor
  · intro pos t pre
    exact genGas_noEmpty pos (folderSize t) t pre (le_refl _)
  · intro pos files dirs pre hfiles hdirs
    unfold generatePagesFromFolder
    have hsz : folderSize (Folder.node files dirs) = dirsSize dirs + 1 := by
      have : folderSize (Folder.node files dirs) = 1 + dirsSize dirs := rfl
      omega
    rw [hsz]
    simp only [genGas, hfiles]
    have hsort : sortBy (fileCmp fun n => pos (joinKey pre n)) [] = [] := rfl
    rw [hsort]
    simp only [List.map_nil, List.nil_append]
    rw [List.filterMap_eq_nil_iff]
    intro d hd
    have hmem : d ∈ dirs := mem_sortBy hd
    have h1 : folderSize d.2 ≤ dirsSize dirs := dirsSize_mem hmem
    have h2 : genGas pos (dirsSize dirs) d.2 (joinKey pre d.1) =
        generatePagesFromFolder pos d.2 (joinKey pre d.1) :=
      genGas_fuel pos (dirsSize dirs) (folderSize d.2) d.2 (joinKey pre d.1) h1 (le_refl _)
    simp only [h2, hdirs d hmem, List.length_nil]
    simp

/-- C8 witness: no empty group on a concrete tree with an empty subtree,
and a concrete directory of non-markup files with a non-markup
subdirectory yields zero pages. -/
theorem c8_no_empty_groups_witness :
    navAllNoEmpty (generatePagesFromFolder posC1
      (Folder.node ["a.md"] [("sub", Folder.node [] [])]) "") = true ∧
    generatePagesFromFolder posC1
      (Folder.node ["notes.txt"] [("assets", Folder.node ["logo.png"] [])]) "" = [] :=
  ⟨c8_no_empty_groups.1 posC1 (Folder.node ["a.md"] [("sub", Folder.node [] [])]) "",
   c8_no_empty_groups.2 posC1 ["notes.txt"] [("assets", Folder.node ["logo.png"] [])] ""
     (by decide)
     (by
       intro d hd
       simp only [List.mem_singleton] at hd
       subst hd
       rfl)⟩

/-- C9: snippet-destined files are written without the edit component;
every other materialized markup file gets the EditPage import and
component appended after its body, with the edit URL derived from the
source path (submodule repositories for `submodules/<name>/...` sources,
the docs repository otherwise) and the version-control timestamp. -/
theorem c9_edit_page_injection :
    (∀ (content destRel srcPath : String) (lm : Option String),
       strStartsWith destRel ("snippets/") = true →
       injectEditPageComponent content destRel srcPath lm = content) ∧
    (∀ (content destRel srcPath : String) (lm : Option String),
       strStartsWith destRel ("snippets/") = false →
       injectEditPageComponent content destRel srcPath lm =
         content ++ editComponentText (getEditUrlFromSource srcPath) lm) ∧
    (∀ (src : SrcFile) (destRel : String) (lm : Option String),
       strEndsWith src.path (".mdx") = true →
       strStartsWith destRel ("snippets/") = false →
       copyFileStep src none destRel lm =
         (some ⟨convertLocalMarkdownLinks (processMarkdownFrontmatter src.content) ++
                  editComponentText (getEditUrlFromSource src.path) lm, src.mtime⟩,
          [FileAction.read, FileAction.transform, FileAction.write])) ∧
    (∀ (name rest : String), '/' ∉ name.data →
       getEditUrlFromSource ("submodules/" ++ name ++ "/" ++ rest) =
         "https://github.com/divvi-xyz/" ++ name ++ "/edit/main/" ++ rest) ∧
    (∀ srcPath : String, strStartsWith srcPath ("submodules/") = false →
       getEditUrlFromSource srcPath =
         "https://github.com/divvi-xyz/docs/edit/main/" ++ srcPath) := by
  refine ⟨?_, ?_, ?_, ?_, ?_⟩
  · intro content destRel srcPath lm h
    simp [injectEditPageComponent, h]
  · intro content destRel srcPath lm h
    simp [injectEditPageComponent, h]
  · intro src destRel lm hmdx hsnip
    simp [copyFileStep, hmdx, transformMaterialized, injectEditPageComponent, hsnip]
  · intro name rest hname
    have hdata : ("submodules/" ++ name ++ "/" ++ rest).data =
        ("submodules/").data ++ (name.data ++ '/' :: rest.data) := by
      simp [String.data_append]
    have hstart : strStartsWith ("submodules/" ++ name ++ "/" ++ rest) ("submodules/") = true := by
      show isPfx (("submodules/").data) ("submodules/" ++ name ++ "/" ++ rest).data = true
      rw [hdata]
      exact isPfx_self_append _ _
    unfold getEditUrlFromSource
    rw [if_pos hstart]
    have hdrop : ("submodules/" ++ name ++ "/" ++ rest).data.drop
        (("submodules/").data.length) = name.data ++ '/' :: rest.data := by
      rw [hdata, List.drop_left]
    rw [hdrop]
    simp only [splitAtChar_append hname, strMkData]
  · intro srcPath h
    unfold getEditUrlFromSource
    rw [if_neg (by simp [h])]

/-- C9 witness: the injection and URL derivation on concrete inputs. -/
theorem c9_edit_page_injection_witness :
    injectEditPageComponent ("body") ("snippets/edit-page.jsx") ("docs-template/snippets/edit-page.jsx") none = ("body") ∧
    injectEditPageComponent ("body") ("protocol/intro.mdx") ("submodules/divvi-protocol/docs/intro.md") none =
      ("body") ++ editComponentText (getEditUrlFromSource ("submodules/divvi-protocol/docs/intro.md")) none ∧
    getEditUrlFromSource ("submodules/divvi-protocol/docs/intro.md") =
      "https://github.com/divvi-xyz/" ++ "divvi-protocol" ++ "/edit/main/" ++ "docs/intro.md" ∧
    getEditUrlFromSource ("docs-template/index.mdx") =
      "https://github.com/divvi-xyz/docs/edit/main/" ++ "docs-template/index.mdx" :=
  ⟨c9_edit_page_injection.1 ("body") ("snippets/edit-page.jsx")
     ("docs-template/snippets/edit-page.jsx") none (by decide),
   c9_edit_page_injection.2.1 ("body") ("protocol/intro.mdx")
     ("submodules/divvi-protocol/docs/intro.md") none (by decide),
   c9_edit_page_injection.2.2.2.1 ("divvi-protocol") ("docs/intro.md") (by decide),
   c9_edit_page_injection.2.2.2.2 ("docs-template/index.mdx") (by decide)⟩

end DocsGen
